import Mathlib

/-!
Verification development for the Belvedere news RSS generator
(`belvedere_rss_generator.py`).

The Python source is shallowly embedded: text is modelled as `List Char`
(Python `str` indexing, slicing and `len` are per code point), HTML element
trees as an inductive `Node`, the feed tree as `XElem`, and the ambient
current time (used only by the "no date found" fallbacks) as an explicit
`ZonedDT` parameter.  External collaborators (HTTP transport, the dateutil
free-form date parser together with the pytz zone database, the HTML text
parser and the XML pretty printer) are kept outside the embedding; the
deterministic logic that lives in the repository — the manual date fallback,
the seasonal-offset rule, the regex-based extractors, the selector cascade,
the dedup loop and the feed assembly — is translated function by function.
-/

namespace Belvedere

/-- Python strings are modelled as lists of characters. -/
abbrev Str := List Char

/-- Convert a Lean string literal to the `Str` model. -/
def str (s : String) : Str := s.data

/-- Python `\s` / `str.strip` whitespace characters (ASCII range). -/
def isSpaceCh (c : Char) : Bool :=
  c == ' ' || c == '\t' || c == '\n' || c == '\r' || c == '\x0b' || c == '\x0c'

/-- Python `str.strip()`: drop leading whitespace. -/
def stripLeft (cs : Str) : Str := cs.dropWhile isSpaceCh

/-- Python `str.strip()`: drop trailing whitespace. -/
def stripRight (cs : Str) : Str := (cs.reverse.dropWhile isSpaceCh).reverse

/-- Python `str.strip()`. -/
def pyStrip (cs : Str) : Str := stripRight (stripLeft cs)

/-- Python `str.lower()` (ASCII case folding suffices for the month names). -/
def lowerStr (cs : Str) : Str := cs.map Char.toLower

/-- Python substring test `needle in hay`. -/
def containsSub (hay needle : Str) : Bool :=
  needle.isPrefixOf hay ||
    match hay with
    | [] => false
    | _ :: t => containsSub t needle

/-- Join a list of strings with a separator (Python `sep.join(parts)`). -/
def joinSep (sep : Str) : List Str → Str
  | [] => []
  | [x] => x
  | x :: xs => x ++ sep ++ joinSep sep xs

/-- Python `str.split()` helper: accumulate the current word (reversed). -/
def splitWsAux : Str → Str → List Str
  | [], acc => if acc.isEmpty then [] else [acc.reverse]
  | c :: rest, acc =>
    if isSpaceCh c then
      if acc.isEmpty then splitWsAux rest [] else acc.reverse :: splitWsAux rest []
    else splitWsAux rest (c :: acc)

/-- Python `str.split()` with no argument: split on runs of whitespace. -/
def splitWs (cs : Str) : List Str := splitWsAux cs []

/-- Span of a character predicate: greedy prefix and the remainder. -/
def spanP (p : Char → Bool) : Str → Str × Str
  | [] => ([], [])
  | c :: cs =>
    if p c then
      let r := spanP p cs
      (c :: r.1, r.2)
    else ([], c :: cs)

/-- Decimal digit characters used when rendering concrete day/year inputs. -/
def digitChar : Nat → Char
  | 0 => '0' | 1 => '1' | 2 => '2' | 3 => '3' | 4 => '4'
  | 5 => '5' | 6 => '6' | 7 => '7' | 8 => '8' | _ => '9'

/-- Numeric value of a decimal digit character (Python `int` on a digit). -/
def digitVal (c : Char) : Nat := c.toNat - 48

/-- Decimal rendering of a day number (one or two digits, no padding). -/
def render2 (d : Nat) : Str :=
  if d < 10 then [digitChar d] else [digitChar (d / 10), digitChar (d % 10)]

/-- Decimal rendering of a four-digit year. -/
def render4 (y : Nat) : Str :=
  [digitChar (y / 1000 % 10), digitChar (y / 100 % 10), digitChar (y / 10 % 10), digitChar (y % 10)]

/-- Zero-padded two-digit field of `strftime` (`%d`, `%H`, `%M`, `%S`). -/
def pad2 (n : Nat) : Str := [digitChar (n / 10 % 10), digitChar (n % 10)]

/-!  The date model.  `datetime` values carrying a fixed UTC offset are
represented by their civil fields plus the offset in hours (the code only
ever builds whole-hour offsets, `-7` and `-8`). -/

/-- A timezone-aware datetime with a fixed whole-hour UTC offset. -/
structure ZonedDT where
  year : Nat
  month : Nat
  day : Nat
  hour : Nat
  minute : Nat
  second : Nat
  offsetHours : Int
deriving DecidableEq, Repr

/-- Embeds `get_pacific_timezone(date_obj)` in its deterministic (non-pytz)
branch: the rough DST window — the advanced offset `-7` for months
March–November, the standard offset `-8` otherwise — chosen by the month of
the date in question.  (With pytz installed the zone database is an external
collaborator; the in-repo seasonal rule is this one.) -/
def get_pacific_timezone (month : Nat) : Int :=
  if 3 ≤ month ∧ month ≤ 11 then -7 else -8

/-- The `month_map` dictionary of `parse_date_string` (full names and
three-letter abbreviations; the duplicate `'may'` entry of the source is
harmless and kept out). -/
def monthMap : List (Str × Nat) :=
  [(str "january", 1), (str "february", 2), (str "march", 3), (str "april", 4),
   (str "may", 5), (str "june", 6), (str "july", 7), (str "august", 8),
   (str "september", 9), (str "october", 10), (str "november", 11), (str "december", 12),
   (str "jan", 1), (str "feb", 2), (str "mar", 3), (str "apr", 4), (str "jun", 6),
   (str "jul", 7), (str "aug", 8), (str "sep", 9), (str "oct", 10), (str "nov", 11),
   (str "dec", 12)]

/-- Gregorian leap-year rule (as validated by `datetime`). -/
def isLeap (y : Nat) : Bool := y % 4 == 0 && (y % 100 != 0 || y % 400 == 0)

/-- Days in a month, for `datetime`'s day validation. -/
def daysInMonth (y m : Nat) : Nat :=
  if m = 2 then (if isLeap y then 29 else 28)
  else if m = 4 ∨ m = 6 ∨ m = 9 ∨ m = 11 then 30
  else 31

/-- The `datetime(year, month, day, ...)` constructor validation: the source
catches `ValueError` and falls through when the fields are out of range. -/
def isValidDate (y m d : Nat) : Bool :=
  decide (1 ≤ y ∧ y ≤ 9999 ∧ 1 ≤ d ∧ d ≤ daysInMonth y m)

/-- Sakamoto's day-of-week algorithm (0 = Sunday), implementing the weekday
that `strftime('%a')` prints for a proleptic Gregorian date. -/
def dayOfWeek (y m d : Nat) : Nat :=
  let t : List Nat := [0, 3, 2, 5, 0, 3, 5, 1, 4, 6, 2, 4]
  let y2 := if m < 3 then y - 1 else y
  (y2 + y2 / 4 - y2 / 100 + y2 / 400 + t.getD (m - 1) 0 + d) % 7

/-- Abbreviated weekday names of `strftime('%a')` (C locale). -/
def weekdayNames : List Str :=
  [str "Sun", str "Mon", str "Tue", str "Wed", str "Thu", str "Fri", str "Sat"]

/-- Abbreviated month names of `strftime('%b')` (C locale). -/
def monthAbbrevs : List Str :=
  [str "Jan", str "Feb", str "Mar", str "Apr", str "May", str "Jun",
   str "Jul", str "Aug", str "Sep", str "Oct", str "Nov", str "Dec"]

/-- The `strftime('%z')` rendering of a whole-hour UTC offset. -/
def offsetStr (off : Int) : Str :=
  (if off < 0 then ['-'] else ['+']) ++ pad2 off.natAbs ++ str "00"

/-- The fixed output pattern `'%a, %d %b %Y %H:%M:%S %z'` used everywhere in
the source for timestamps. -/
def formatRFC822 (z : ZonedDT) : Str :=
  weekdayNames.getD (dayOfWeek z.year z.month z.day) (str "Sun") ++ str ", " ++
    pad2 z.day ++ [' '] ++ monthAbbrevs.getD (z.month - 1) (str "Jan") ++ [' '] ++
    render4 z.year ++ [' '] ++ pad2 z.hour ++ [':'] ++ pad2 z.minute ++ [':'] ++
    pad2 z.second ++ [' '] ++ offsetStr z.offsetHours

/-!  The manual fallback parser of `parse_date_string`: the anchored regex
`([A-Za-z]+)\s+(\d{1,2}),?\s+(\d{4})` applied with `re.match` (prefix match,
trailing input ignored) to the stripped date string. -/

/-- Read exactly four decimal digits from the front (`\d{4}`, unanchored at
the right: any remaining characters are ignored). -/
def takeDigits4 : Str → Option Nat
  | c1 :: c2 :: c3 :: c4 :: _ =>
    if c1.isDigit && c2.isDigit && c3.isDigit && c4.isDigit then
      some (((digitVal c1 * 10 + digitVal c2) * 10 + digitVal c3) * 10 + digitVal c4)
    else none
  | _ => none

/-- The mandatory-whitespace-then-year part `\s+(\d{4})` of the fallback
regex's tail. -/
def parseTailWs (d : Nat) (cs : Str) : Option (Nat × Nat) :=
  if (spanP isSpaceCh cs).1.isEmpty then none
  else
    match takeDigits4 (spanP isSpaceCh cs).2 with
    | some y => some (d, y)
    | none => none

/-- After the day digits: `,?\s+(\d{4})`.  An optional comma must be followed
by mandatory whitespace, then four digits; a comma not followed by whitespace
cannot be re-read as whitespace, so no backtracking arises. -/
def parseTail (d : Nat) : Str → Option (Nat × Nat)
  | ',' :: r => parseTailWs d r
  | r => parseTailWs d r

/-- The day group `(\d{1,2})` with regex backtracking: greedily try two
digits; if the rest of the pattern then fails, retry with one digit. -/
def parseDayTail : Str → Option (Nat × Nat)
  | [] => none
  | [c1] => if c1.isDigit then parseTail (digitVal c1) [] else none
  | c1 :: c2 :: rest2 =>
    if c1.isDigit then
      if c2.isDigit then
        match parseTail (digitVal c1 * 10 + digitVal c2) rest2 with
        | some r => some r
        | none => parseTail (digitVal c1) (c2 :: rest2)
      else parseTail (digitVal c1) (c2 :: rest2)
    else none

/-- `re.match(r'([A-Za-z]+)\s+(\d{1,2}),?\s+(\d{4})', s)`: month-name group,
day and year, matched against a prefix of the input. -/
def parseMDY (cs : Str) : Option (Str × Nat × Nat) :=
  if (spanP (fun c => c.isAlpha) cs).1.isEmpty then none
  else if (spanP isSpaceCh (spanP (fun c => c.isAlpha) cs).2).1.isEmpty then none
  else
    match parseDayTail (spanP isSpaceCh (spanP (fun c => c.isAlpha) cs).2).2 with
    | some (d, y) => some ((spanP (fun c => c.isAlpha) cs).1, d, y)
    | none => none

/-- The month-lookup and `datetime` construction stage of the fallback:
look the lowered month name up in `month_map`, validate the date, and build
the noon Pacific timestamp with the seasonal offset chosen by the parsed
month. -/
def buildDate (mname : Str) (d y : Nat) : Option ZonedDT :=
  match monthMap.lookup (lowerStr mname) with
  | none => none
  | some m =>
    if isValidDate y m d then
      some ⟨y, m, d, 12, 0, 0, get_pacific_timezone m⟩
    else none

/-- The deterministic core of `parse_date_string`'s manual fallback: strip,
match the month-name pattern, then look up and validate.  `none` means the
source falls through to the "current time" default. -/
def parse_date_string_core (date_str : Str) : Option ZonedDT :=
  match parseMDY (pyStrip date_str) with
  | none => none
  | some (mname, d, y) => buildDate mname d y

/-- Embeds `parse_date_string` on its manual-fallback path (the dateutil
free-form parser and the pytz zone database are external collaborators).
`now` is the ambient current Pacific time used by the final default branch. -/
def parse_date_string (now : ZonedDT) (date_str : Str) : Str :=
  match parse_date_string_core date_str with
  | some z => formatRFC822 z
  | none => formatRFC822 now

/-- Text rendering `'<MonthName> <Day>[,] <Year>'` of a concrete date, used
to state the claims about the fallback parser.  `comma` selects whether the
optional comma after the day is present. -/
def renderDate (name : Str) (comma : Bool) (d y : Nat) : Str :=
  name ++ [' '] ++ render2 d ++ (if comma then [','] else []) ++ [' '] ++ render4 y

/-!  The `extract_date_from_text` patterns.  Each is modelled as an
anchored-at-position matcher returning the captured group-1 substring;
`reSearch` then supplies `re.search`'s leftmost-match semantics. -/

/-- Case-insensitive literal match (the literal is given lowercased);
returns the rest of the input (`re.IGNORECASE` on `'Posted on '`). -/
def ciLiteral : Str → Str → Option Str
  | [], cs => some cs
  | _ :: _, [] => none
  | l :: ls, c :: cs => if c.toLower == l then ciLiteral ls cs else none

/-- Day digits followed by the literal `', '` — the two-digit greedy attempt
of `\d{1,2}, `. -/
def day2Comma : Str → Option (Str × Str)
  | c1 :: c2 :: ',' :: ' ' :: rest =>
    if c1.isDigit && c2.isDigit then some ([c1, c2], rest) else none
  | _ => none

/-- One-digit fallback of `\d{1,2}, `. -/
def day1Comma : Str → Option (Str × Str)
  | c1 :: ',' :: ' ' :: rest => if c1.isDigit then some ([c1], rest) else none
  | _ => none

/-- Exactly four digit characters (`\d{4}`), trailing input ignored. -/
def fourDigitChars : Str → Option (Str × Str)
  | c1 :: c2 :: c3 :: c4 :: rest =>
    if c1.isDigit && c2.isDigit && c3.isDigit && c4.isDigit then
      some ([c1, c2, c3, c4], rest)
    else none
  | _ => none

/-- The strict month-name date shape `[A-Za-z]+ \d{1,2}, \d{4}` (literal
single spaces, mandatory comma) shared by search patterns 1–3 and by the
`Posted on`/`Published on` prefix-stripping substitutions.  Returns the
matched characters and the rest of the input. -/
def matchMDYstrict (cs : Str) : Option (Str × Str) :=
  let al := spanP (fun c => c.isAlpha) cs
  if al.1.isEmpty then none
  else
    match al.2 with
    | ' ' :: r2 =>
      match (day2Comma r2).orElse (fun _ => day1Comma r2) with
      | none => none
      | some (dcs, r3) =>
        match fourDigitChars r3 with
        | none => none
        | some (ycs, r4) => some (al.1 ++ ' ' :: dcs ++ ',' :: ' ' :: ycs, r4)
    | _ => none

/-- Pattern 1: `Posted on ([A-Za-z]+ \d{1,2}, \d{4})`, case-insensitive. -/
def matchP1 (cs : Str) : Option Str :=
  match ciLiteral (str "posted on ") cs with
  | none => none
  | some rest => (matchMDYstrict rest).map (fun r => r.1)

/-- Pattern 2: `Published on ([A-Za-z]+ \d{1,2}, \d{4})`, case-insensitive. -/
def matchP2 (cs : Str) : Option Str :=
  match ciLiteral (str "published on ") cs with
  | none => none
  | some rest => (matchMDYstrict rest).map (fun r => r.1)

/-- Pattern 3: the bare `([A-Za-z]+ \d{1,2}, \d{4})`. -/
def matchP3 (cs : Str) : Option Str :=
  (matchMDYstrict cs).map (fun r => r.1)

/-- Two digits followed by a separator character (greedy attempt of
`\d{1,2}` before a literal `/` or `-`). -/
def day2Sep (sep : Char) : Str → Option (Str × Str)
  | c1 :: c2 :: c3 :: rest =>
    if c1.isDigit && c2.isDigit && c3 == sep then some ([c1, c2], rest) else none
  | _ => none

/-- One digit followed by a separator character. -/
def day1Sep (sep : Char) : Str → Option (Str × Str)
  | c1 :: c2 :: rest => if c1.isDigit && c2 == sep then some ([c1], rest) else none
  | _ => none

/-- `\d{1,2}` directly before a separator, with regex backtracking.  The
two alternatives are mutually exclusive (a digit is never the separator),
so no cross-group backtracking arises. -/
def daySep (sep : Char) (cs : Str) : Option (Str × Str) :=
  (day2Sep sep cs).orElse (fun _ => day1Sep sep cs)

/-- Trailing `\d{1,2}` with nothing after it: greedily two digits, else one. -/
def day12Final : Str → Option Str
  | c1 :: c2 :: _ =>
    if c1.isDigit then (if c2.isDigit then some [c1, c2] else some [c1]) else none
  | [c1] => if c1.isDigit then some [c1] else none
  | [] => none

/-- Pattern 4: `(\d{1,2}/\d{1,2}/\d{4})`. -/
def matchP4 (cs : Str) : Option Str :=
  match daySep '/' cs with
  | none => none
  | some (a, r1) =>
    match daySep '/' r1 with
    | none => none
    | some (b, r2) =>
      match fourDigitChars r2 with
      | none => none
      | some (y, _) => some (a ++ '/' :: b ++ '/' :: y)

/-- Pattern 5: `(\d{4}-\d{1,2}-\d{1,2})`. -/
def matchP5 (cs : Str) : Option Str :=
  match fourDigitChars cs with
  | none => none
  | some (y, r1) =>
    match r1 with
    | '-' :: r2 =>
      match daySep '-' r2 with
      | none => none
      | some (a, r3) =>
        match day12Final r3 with
        | none => none
        | some b => some (y ++ '-' :: a ++ '-' :: b)
    | _ => none

/-- `re.search` semantics: try the anchored matcher at each successive start
position and take the leftmost success. -/
def reSearch (p : Str → Option Str) (cs : Str) : Option Str :=
  match p cs with
  | some r => some r
  | none =>
    match cs with
    | [] => none
    | _ :: t => reSearch p t

/-- The `date_patterns` list of `extract_date_from_text`, in source order. -/
def date_patterns : List (Str → Option Str) :=
  [matchP1, matchP2, matchP3, matchP4, matchP5]

/-- The pattern loop of `extract_date_from_text`: the first pattern that
matches anywhere hands its captured substring to `parse_date_string`; if
none matches the current Pacific time is formatted instead. -/
def searchLoop (now : ZonedDT) : List (Str → Option Str) → Str → Str
  | [], _ => formatRFC822 now
  | p :: ps, text =>
    match reSearch p text with
    | some s => parse_date_string now s
    | none => searchLoop now ps text

/-- Embeds `extract_date_from_text`. -/
def extract_date_from_text (now : ZonedDT) (text : Str) : Str :=
  searchLoop now date_patterns text

/-!  The element-tree model of the HTML parse collaborator (BeautifulSoup).
A document is the soup node; its proper descendants, in pre-order
(document order), are what `find`/`find_all`/`select` traverse. -/

/-- A parsed HTML node: a text node (NavigableString) or a tag with its
attributes and children.  Multi-token `class` attributes keep their raw
string value; token handling follows BeautifulSoup and soupsieve. -/
inductive Node where
  | text : Str → Node
  | elem : String → List (String × Str) → List Node → Node

mutual
/-- Pre-order (parent, node) pairs of a node below a given parent. -/
def nodePairs (par : Node) : Node → List (Node × Node)
  | .text s => [(par, .text s)]
  | .elem t a cs => (par, .elem t a cs) :: nodePairsList (.elem t a cs) cs
/-- Pre-order (parent, node) pairs of a list of siblings. -/
def nodePairsList (par : Node) : List Node → List (Node × Node)
  | [] => []
  | c :: cs => nodePairs par c ++ nodePairsList par cs
end

/-- All (parent, descendant) pairs of a document, in document order. -/
def descPairs : Node → List (Node × Node)
  | .text _ => []
  | .elem t a cs => nodePairsList (.elem t a cs) cs

/-- All proper descendants of a node, in document order — the traversal
underlying `find`, `find_all` and `select`. -/
def desc (n : Node) : List Node := (descPairs n).map Prod.snd

/-- Python `href.startswith('/')`. -/
def startsWithCh (c : Char) : Str → Bool
  | [] => false
  | x :: _ => x == c

/-- Tag name of an element node (empty for text nodes). -/
def tagOf : Node → String
  | .text _ => ""
  | .elem t _ _ => t

/-- Attribute lookup (`tag.get(name)`). -/
def getAttr (n : Node) (key : String) : Option Str :=
  match n with
  | .text _ => none
  | .elem _ attrs _ => attrs.lookup key

/-- Attribute lookup with Python's `tag.get(name, '')` default. -/
def getAttrD (n : Node) (key : String) : Str := (getAttr n key).getD []

/-- Is this node a tag (not a NavigableString)? -/
def isElem : Node → Bool
  | .text _ => false
  | .elem _ _ _ => true

/-- BeautifulSoup `tag.string`: the unique string reachable through a chain
of single children, if any. -/
def nodeString : Node → Option Str
  | .text s => some s
  | .elem _ _ [c] => nodeString c
  | .elem _ _ _ => none

/-- The text-node contents of all descendants, in document order. -/
def textStrings (n : Node) : List Str :=
  (descPairs n).filterMap (fun pr =>
    match pr.2 with
    | .text s => some s
    | .elem _ _ _ => none)

/-- BeautifulSoup `get_text(separator=sep, strip=True)`: each descendant
string stripped, empties dropped, the rest joined by the separator. -/
def getText (sep : Str) (n : Node) : Str :=
  joinSep sep (((textStrings n).map pyStrip).filter (fun s => !s.isEmpty))

/-- The `class` attribute as a token list (BeautifulSoup stores `class`
split on whitespace). -/
def classTokens (n : Node) : List Str :=
  match getAttr n "class" with
  | none => []
  | some v => splitWs v

/-- The CSS selectors of `parse_news_page`'s `article_selectors` list. -/
inductive Sel where
  | tagSel : String → Sel
  | classSel : String → Sel
  | classSubSel : String → Sel
deriving DecidableEq

/-- `article_selectors`, in source order: `article`, `.post`, `.news-item`,
`.entry`, `[class*="post"]`, `[class*="article"]`, `[class*="news"]`. -/
def article_selectors : List Sel :=
  [.tagSel "article", .classSel "post", .classSel "news-item", .classSel "entry",
   .classSubSel "post", .classSubSel "article", .classSubSel "news"]

/-- Does one node match a selector?  A class selector matches a class token
exactly; `[class*=s]` matches a substring of the space-joined token list
(soupsieve's serialization of the multi-valued attribute). -/
def matchesSel (s : Sel) (n : Node) : Bool :=
  match n with
  | .text _ => false
  | .elem tag _ _ =>
    match s with
    | .tagSel t => tag == t
    | .classSel c => (classTokens n).contains (str c)
    | .classSubSel sub =>
      match getAttr n "class" with
      | none => false
      | some _ => containsSub (joinSep [' '] (classTokens n)) (str sub)

/-- `soup.select(selector)`: all matching elements in document order. -/
def select (soup : Node) (s : Sel) : List Node :=
  (desc soup).filter (matchesSel s)

/-- The first non-empty result of the selector cascade (`for selector in
article_selectors: ... if found: break`). -/
def firstNonEmpty : List (List Node) → List Node
  | [] => []
  | l :: ls => if l.isEmpty then firstNonEmpty ls else l

/-- Tier 1 of the Page Segmenter: the first selector with ≥ 1 match wins. -/
def tier1 (soup : Node) : List Node :=
  firstNonEmpty (article_selectors.map (select soup))

/-- The `href` values of all `a`-descendants carrying an `href` attribute
(`elem.find_all('a', href=True)` followed by `link.get('href', '')`). -/
def aHrefVals (n : Node) : List Str :=
  (desc n).filterMap (fun m =>
    match m with
    | .elem "a" _ _ => getAttr m "href"
    | _ => none)

/-- Tier 2 of the Page Segmenter: `soup.find_all(['div','section'],
string=re.compile(r'.+', re.DOTALL))` — div/section elements whose
`.string` is a non-empty string — kept when some `a[href]` descendant's
target contains `'/news'` or contains `'/'` at all. -/
def tier2 (soup : Node) : List Node :=
  let potential := (desc soup).filter (fun n =>
    (tagOf n == "div" || tagOf n == "section") &&
      (match nodeString n with
       | some s => !s.isEmpty
       | none => false))
  potential.filter (fun e =>
    (aHrefVals e).any (fun v => containsSub v (str "/news") || v.contains '/'))

/-- Does a hyperlink qualify for tier 3: an `a[href]` whose target contains
`'/news'` or starts with `'/'`, with non-empty stripped visible text? -/
def tier3Qualifies (n : Node) : Bool :=
  match n with
  | .elem "a" _ _ =>
    match getAttr n "href" with
    | none => false
    | some v =>
      (containsSub v (str "/news") || startsWithCh '/' v) && !(getText [] n).isEmpty
  | _ => false

/-- Tier 3 of the Page Segmenter: every qualifying hyperlink contributes its
parent element (`link.parent or link`; within a parsed document the parent
always exists and BeautifulSoup tags are always truthy). -/
def tier3 (soup : Node) : List Node :=
  (descPairs soup).filterMap (fun pr =>
    if tier3Qualifies pr.2 then some pr.1 else none)

/-- The candidate-element cascade of `parse_news_page`: tier 1, else tier 2,
else tier 3. -/
def articleElements (soup : Node) : List Node :=
  if (tier1 soup).isEmpty then
    if (tier2 soup).isEmpty then tier3 soup else tier2 soup
  else tier1 soup

/-- Which cascade tier produced the candidate list. -/
def segmentTier (soup : Node) : Nat :=
  if (tier1 soup).isEmpty then
    if (tier2 soup).isEmpty then 3 else 2
  else 1

/-!  The Article Field Extractor. -/

/-- The site base URL (`self.base_url`). -/
def base_url : Str := str "https://www.cityofbelvedere.org"

/-- The news page URL (`self.news_url`). -/
def news_url : Str := str "https://www.cityofbelvedere.org/news"

/-- Characters allowed in a URL scheme after the initial letter. -/
def isSchemeChar (c : Char) : Bool :=
  c.isAlphanum || c == '+' || c == '-' || c == '.'

/-- Does a reference carry its own scheme (`urlparse` scheme detection)? -/
def hasScheme : Str → Bool
  | [] => false
  | c :: rest => c.isAlpha && ((rest.dropWhile isSchemeChar).headD ' ' == ':')

/-- Models `urllib.parse.urljoin(base, rel)` for the base URL of this site
(absolute `https` URL with an empty path), covering the reference shapes the
page can produce: a reference with its own scheme is returned unchanged, a
network-path `//host/...` reference adopts the base scheme, and other
references are resolved against the empty base path.  (Dot-segment
normalization is omitted; every output remains an absolute URL.) -/
def urljoin (base rel : Str) : Str :=
  if rel.isEmpty then base
  else if hasScheme rel then rel
  else if (str "//").isPrefixOf rel then str "https:" ++ rel
  else if startsWithCh '/' rel then base ++ rel
  else if startsWithCh '?' rel || startsWithCh '#' rel then base ++ rel
  else base ++ '/' :: rel

/-- `element.find(...)`: the first descendant, in document order, satisfying
a predicate. -/
def findFirstDesc (p : Node → Bool) (n : Node) : Option Node := (desc n).find? p

/-- Is the tag one of `['h1', 'h2', 'h3', 'h4']`? -/
def isHeading (n : Node) : Bool :=
  tagOf n == "h1" || tagOf n == "h2" || tagOf n == "h3" || tagOf n == "h4"

/-- Is the node an `a` tag? -/
def isTagA (n : Node) : Bool := isElem n && tagOf n == "a"

/-- Is the node an `a` tag with an `href` attribute present
(`find('a', href=True)`)? -/
def isAHref (n : Node) : Bool := isTagA n && (getAttr n "href").isSome

/-- `find(class_=re.compile(r'title|headline', re.I))`: some class token
contains `title` or `headline` case-insensitively. -/
def hasTitleClass (n : Node) : Bool :=
  isElem n && (classTokens n).any (fun tok =>
    containsSub (lowerStr tok) (str "title") || containsSub (lowerStr tok) (str "headline"))

/-- The title chain of `extract_article_info`: first heading, else first
hyperlink, else first element with a title/headline class; its stripped
text, or empty when nothing is found.  (BeautifulSoup tags are always
truthy, so an element whose text is empty still wins the `or`-chain.) -/
def extractTitle (e : Node) : Str :=
  match findFirstDesc isHeading e with
  | some t => getText [] t
  | none =>
    match findFirstDesc isTagA e with
    | some t => getText [] t
    | none =>
      match findFirstDesc hasTitleClass e with
      | some t => getText [] t
      | none => []

/-- The link of `extract_article_info`: the first `a[href]` descendant's
target resolved against the base URL, or empty. -/
def extractLink (e : Node) : Str :=
  match findFirstDesc isAHref e with
  | some a => urljoin base_url (getAttrD a "href")
  | none => []

/-- Strip one anchored, case-insensitive `<lit><MonthName> <D>, <Y>\s*`
prefix (the `re.sub(r'^Posted on ...', '', ...)` cleanups); the literal is
given lowercased. -/
def stripDatePhrase (lit : Str) (cs : Str) : Str :=
  match ciLiteral lit cs with
  | none => cs
  | some rest =>
    match matchMDYstrict rest with
    | none => cs
    | some (_, after) => after.dropWhile isSpaceCh

/-- The description of `extract_article_info` before truncation: the full
stripped text, minus a leading repetition of the title, minus a leading
`Posted on <date>` / `Published on <date>` phrase. -/
def cleanedDescription (e : Node) : Str :=
  let title := extractTitle e
  let full_text := getText [' '] e
  let d0 :=
    if !title.isEmpty && title.isPrefixOf full_text then
      pyStrip (full_text.drop title.length)
    else full_text
  stripDatePhrase (str "published on ") (stripDatePhrase (str "posted on ") d0)

/-- One extracted article record (the `info` dictionary). -/
structure ArticleInfo where
  title : Str
  link : Str
  description : Str
  pub_date : Str
deriving DecidableEq, Repr

/-- Embeds `extract_article_info`: title, absolute link, cleaned and
truncated description, and the publication date extracted from the full
text (falling back to the current Pacific time `now`). -/
def extract_article_info (now : ZonedDT) (e : Node) : ArticleInfo :=
  let title := extractTitle e
  let link := extractLink e
  let full_text := getText [' '] e
  let pub_date := extract_date_from_text now full_text
  let cleaned := cleanedDescription e
  let descr :=
    if cleaned.length > 500 then cleaned.take 500 ++ str "..." else cleaned
  ⟨title, link, pyStrip descr, pub_date⟩

/-- The accept/skip loop of `parse_news_page`: records with an empty title,
an empty link, or an already-seen link are dropped; accepted links join the
`seen_links` set.  (The per-candidate `try/except` recovery is vacuous in
the pure embedding: extraction is total.) -/
def dedupLoop (seen : List Str) : List ArticleInfo → List ArticleInfo
  | [] => []
  | a :: rest =>
    if a.title = [] ∨ a.link = [] ∨ a.link ∈ seen then
      dedupLoop seen rest
    else a :: dedupLoop (a.link :: seen) rest

/-- Embeds `parse_news_page`: the candidate cascade, capped at the first 20
elements, extracted, filtered and deduplicated. -/
def parse_news_page (now : ZonedDT) (soup : Node) : List ArticleInfo :=
  dedupLoop [] (((articleElements soup).take 20).map (extract_article_info now))

/-- First-occurrence deduplication by link over an already-filtered list;
used to state the invariant that the loop keeps the first record carrying a
duplicated link. -/
def dedupFirst (seen : List Str) : List ArticleInfo → List ArticleInfo
  | [] => []
  | a :: rest =>
    if a.link ∈ seen then dedupFirst seen rest
    else a :: dedupFirst (a.link :: seen) rest

/-- The records of the first 20 candidates that carry a non-empty title and
link (the loop's validity filter, before deduplication). -/
def validRecords (now : ZonedDT) (soup : Node) : List ArticleInfo :=
  (((articleElements soup).take 20).map (extract_article_info now)).filter
    (fun a => decide (a.title ≠ [] ∧ a.link ≠ []))

/-!  The Feed Assembler (`generate_rss`), modelled as an
`xml.etree.ElementTree` tree. -/

/-- An XML element: tag, attributes, text content, children. -/
structure XElem where
  tag : String
  attrs : List (String × String)
  text : Str
  children : List XElem

/-- The channel metadata children, in source order. -/
def channelMeta (now : ZonedDT) : List XElem :=
  [⟨"title", [], str "City of Belvedere News", []⟩,
   ⟨"link", [], news_url, []⟩,
   ⟨"description", [], str "Official news and updates from the City of Belvedere, California", []⟩,
   ⟨"language", [], str "en-us", []⟩,
   ⟨"lastBuildDate", [], formatRFC822 now, []⟩,
   ⟨"managingEditor", [], str "clerk@cityofbelvedere.org (City of Belvedere)", []⟩,
   ⟨"webMaster", [], str "clerk@cityofbelvedere.org (City of Belvedere)", []⟩,
   ⟨"\x7bhttp://www.w3.org/2005/Atom\x7dlink",
    [("href", "https://www.cityofbelvedere.org/rss.xml"), ("rel", "self"),
     ("type", "application/rss+xml")], [], []⟩]

/-- One `<item>` element: title, link, description, pubDate, and a
permalink-flagged `<guid>` whose text is the link. -/
def itemElem (a : ArticleInfo) : XElem :=
  ⟨"item", [], [],
   [⟨"title", [], a.title, []⟩,
    ⟨"link", [], a.link, []⟩,
    ⟨"description", [], a.description, []⟩,
    ⟨"pubDate", [], a.pub_date, []⟩,
    ⟨"guid", [("isPermaLink", "true")], a.link, []⟩]⟩

/-- Embeds `generate_rss` up to serialization (the pretty printer is an
external collaborator): the `<rss><channel>` tree with fixed metadata
followed by one item per article, in input order. -/
def generate_rss (now : ZonedDT) (articles : List ArticleInfo) : XElem :=
  ⟨"rss", [("version", "2.0"), ("xmlns:atom", "http://www.w3.org/2005/Atom")], [],
   [⟨"channel", [], [], channelMeta now ++ articles.map itemElem⟩]⟩

/-- The channel child of a feed tree. -/
def feedChannel (x : XElem) : XElem := x.children.headD ⟨"", [], [], []⟩

/-- The `<item>` children of the feed's channel. -/
def feedItems (x : XElem) : List XElem :=
  (feedChannel x).children.filter (fun c => c.tag == "item")

/-- The first child with a given tag (`find` on an element tree). -/
def childWithTag (t : String) (e : XElem) : Option XElem :=
  e.children.find? (fun c => c.tag == t)

/-!  The driver. -/

/-- The observable progress events of `run()` (its printed lines and its
single call into the Feed Assembler). -/
inductive RunEvent where
  | fetchingPage
  | fetchFailed
  | parsingArticles
  | noArticlesFound
  | foundArticles : Nat → RunEvent
  | generatingFeed
  | assembled : XElem → RunEvent

/-- Did the event record an invocation of the Feed Assembler? -/
def isAssembledEvent : RunEvent → Bool
  | .assembled _ => true
  | _ => false

/-- Embeds `run()`.  The fetch collaborator's outcome is the `fetched`
argument (`none` = request failure; the source's `if not html_content`
also treats an empty body as a failure), and the HTML parse collaborator is
the `parseHtml` argument.  Returns the success flag and the event trace. -/
def run (parseHtml : Str → Node) (now : ZonedDT) (fetched : Option Str) :
    Bool × List RunEvent :=
  match fetched with
  | none => (false, [.fetchingPage, .fetchFailed])
  | some html =>
    if html.isEmpty then (false, [.fetchingPage, .fetchFailed])
    else
      let articles := parse_news_page now (parseHtml html)
      if articles.isEmpty then
        (false, [.fetchingPage, .parsingArticles, .noArticlesFound])
      else
        (true, [.fetchingPage, .parsingArticles, .foundArticles articles.length,
                .generatingFeed, .assembled (generate_rss now articles)])

/-- Modelled from the spec: the tier-2 candidate set as the specification
describes it — every generic block/section element that "contains non-empty
text AND contains at least one hyperlink whose target looks like an internal
page (path containing `/news` or any relative path)".  Stated for comparison
with the source's `tier2`; "contains non-empty text" is read as non-empty
stripped visible text and "relative path" as a root-relative reference. -/
def claimedTier2 (soup : Node) : List Node :=
  (desc soup).filter (fun n =>
    (tagOf n == "div" || tagOf n == "section") &&
      !(getText [' '] n).isEmpty &&
      (aHrefVals n).any (fun v => containsSub v (str "/news") || startsWithCh '/' v))

/-- A relative-path hyperlink with non-empty visible text (the hypothesis of
the tier-3 claim). -/
def relLinkWithText (n : Node) : Bool :=
  isAHref n && startsWithCh '/' (getAttrD n "href") && !(getText [] n).isEmpty

/-- Does the document contain a relative-path hyperlink with text? -/
def hasRelLinkWithText (soup : Node) : Bool :=
  (desc soup).any relLinkWithText

/-!  Concrete inputs for witnesses and counterexamples. -/

/-- A fixed ambient current time (an arbitrary winter instant). -/
def now0 : ZonedDT := ⟨2025, 1, 1, 0, 0, 0, -8⟩

/-- Witness document for the tier-1 claim: a `class="news-item"` container
plus an unclassed extra block. -/
def tier1Doc : Node :=
  .elem "[document]" []
    [.elem "div" [("class", str "news-item")]
      [.elem "h2" [] [.text (str "Town Hall Update")],
       .elem "a" [("href", str "/news/1")] [.text (str "read")]],
     .elem "p" [] [.text (str "footer")]]

/-- Counterexample document for the tier-2 claim: a div with mixed content
(text plus a `/news` hyperlink), which the specification's tier-2 rule
collects but the source's `string=`-filtered `find_all` does not. -/
def cexDoc5 : Node :=
  .elem "[document]" []
    [.elem "div" []
      [.text (str "hello "),
       .elem "a" [("href", str "/news/1")] [.text (str "x")]]]

/-- Counterexample document for the tier-3 claim: both hyperlinks are
relative and the second carries text, so tier 3 fires, but the shared
parent's first hyperlink has empty text, so the extracted title is empty
and no article record survives. -/
def cexDoc6 : Node :=
  .elem "[document]" []
    [.elem "p" []
      [.elem "a" [("href", str "/x")] [],
       .elem "a" [("href", str "/y")] [.text (str "t")]]]

/-- Witness document for the amended tier-3 claim: a lone relative link with
text whose record survives filtering. -/
def tier3Doc : Node :=
  .elem "[document]" []
    [.elem "p" [] [.elem "a" [("href", str "/news/1")] [.text (str "Story")]]]

/-- Witness element for the description-truncation claim: its cleaned text
is 510 characters long. -/
def longTextElem : Node :=
  .elem "div" [] [.text (List.replicate 510 'a')]

/-- Witness article list for the feed-assembly claim. -/
def witnessArticles : List ArticleInfo :=
  [⟨str "Town Hall Update", str "https://www.cityofbelvedere.org/news/1",
    str "Construction continues.", str "Tue, 20 May 2025 12:00:00 -0700"⟩,
   ⟨str "Ferry Schedule", str "https://www.cityofbelvedere.org/news/2",
    str "New times.", str "Sun, 05 Jan 2025 12:00:00 -0800"⟩]

/-- Witness text for the date-extraction claim: matched by the slash-date
pattern only. -/
def slashDateText : Str := str "Council met 12/25/2025 in chambers"

/-!  Lemmas about the dedup loop of `parse_news_page`. -/

theorem dedupLoop_length_le (l : List ArticleInfo) :
    ∀ seen, (dedupLoop seen l).length ≤ l.length := by
  induction l with
  | nil => intro seen; simp [dedupLoop]
  | cons a rest ih =>
    intro seen
    rw [dedupLoop]
    split
    · exact Nat.le_trans (ih seen) (Nat.le_succ _)
    · simpa using ih (a.link :: seen)

theorem mem_dedupLoop {l : List ArticleInfo} :
    ∀ {seen a}, a ∈ dedupLoop seen l →
      a.title ≠ [] ∧ a.link ≠ [] ∧ a.link ∉ seen ∧ a ∈ l := by
  induction l with
  | nil => intro seen a h; simp [dedupLoop] at h
  | cons b rest ih =>
    intro seen a h
    rw [dedupLoop] at h
    by_cases hb : b.title = [] ∨ b.link = [] ∨ b.link ∈ seen
    · rw [if_pos hb] at h
      obtain ⟨h1, h2, h3, h4⟩ := ih h
      exact ⟨h1, h2, h3, List.mem_cons_of_mem _ h4⟩
    · rw [if_neg hb] at h
      push_neg at hb
      rcases List.mem_cons.mp h with rfl | h2
      · exact ⟨hb.1, hb.2.1, hb.2.2, List.mem_cons_self _ _⟩
      · obtain ⟨g1, g2, g3, g4⟩ := ih h2
        refine ⟨g1, g2, fun hmem => g3 (List.mem_cons_of_mem _ hmem), List.mem_cons_of_mem _ g4⟩

theorem nodup_dedupLoop (l : List ArticleInfo) :
    ∀ seen, ((dedupLoop seen l).map (fun a => a.link)).Nodup := by
  induction l with
  | nil => intro seen; simp [dedupLoop]
  | cons a rest ih =>
    intro seen
    rw [dedupLoop]
    split
    · exact ih seen
    · rw [List.map_cons, List.nodup_cons]
      refine ⟨fun hmem => ?_, ih (a.link :: seen)⟩
      obtain ⟨b, hb, hbeq⟩ := List.mem_map.mp hmem
      have h3 := (mem_dedupLoop hb).2.2.1
      exact h3 (by rw [hbeq]; exact List.mem_cons_self _ _)

theorem dedupLoop_eq_dedupFirst (l : List ArticleInfo) :
    ∀ seen, dedupLoop seen l =
      dedupFirst seen (l.filter (fun a => decide (a.title ≠ [] ∧ a.link ≠ []))) := by
  induction l with
  | nil => intro seen; simp [dedupLoop, dedupFirst]
  | cons a rest ih =>
    intro seen
    rw [dedupLoop, List.filter_cons]
    by_cases hv : a.title ≠ [] ∧ a.link ≠ []
    · have hd : (decide (a.title ≠ [] ∧ a.link ≠ [])) = true := by
        simp [hv.1, hv.2]
      rw [hd, if_pos rfl, dedupFirst]
      by_cases hs : a.link ∈ seen
      · rw [if_pos (Or.inr (Or.inr hs)), if_pos hs]
        exact ih seen
      · rw [if_neg (by push_neg; exact ⟨hv.1, hv.2, hs⟩), if_neg hs]
        rw [ih (a.link :: seen)]
    · have hd : (decide (a.title ≠ [] ∧ a.link ≠ [])) = false := by
        simpa using hv
      rw [hd]
      have hcond : a.title = [] ∨ a.link = [] ∨ a.link ∈ seen := by
        rcases Decidable.not_and_iff_or_not.mp hv with h | h
        · exact Or.inl (by simpa using h)
        · exact Or.inr (Or.inl (by simpa using h))
      rw [if_pos hcond, if_neg (by simp)]
      exact ih seen

/-- Claim C2: for every fetched document, `parse_news_page` returns at most
20 records, every record has a non-empty title and a non-empty link, the
links are pairwise distinct, and the list is the first-occurrence
deduplication (by link) of the valid records of the first 20 candidates —
the first record carrying a duplicated link is kept and later duplicates
are silently dropped. -/
theorem parse_news_page_invariant (now : ZonedDT) (soup : Node) :
    (parse_news_page now soup).length ≤ 20 ∧
    (∀ a ∈ parse_news_page now soup, a.title ≠ [] ∧ a.link ≠ []) ∧
    ((parse_news_page now soup).map (fun a => a.link)).Nodup ∧
    parse_news_page now soup = dedupFirst [] (validRecords now soup) := by
  refine ⟨?_, ?_, ?_, ?_⟩
  · calc (parse_news_page now soup).length
        ≤ (((articleElements soup).take 20).map (extract_article_info now)).length :=
          dedupLoop_length_le _ []
      _ ≤ 20 := by
          rw [List.length_map]
          exact (List.length_take_le 20 _)
  · intro a ha
    obtain ⟨h1, h2, _, _⟩ := mem_dedupLoop ha
    exact ⟨h1, h2⟩
  · exact nodup_dedupLoop _ []
  · exact dedupLoop_eq_dedupFirst _ []

/-- Claim C9: when the fetch collaborator fails, `run` returns the failure
flag with only the fetch progress events, and no event records an
invocation of the Feed Assembler. -/
theorem run_fetch_failure (parseHtml : Str → Node) (now : ZonedDT) :
    run parseHtml now none = (false, [.fetchingPage, .fetchFailed]) ∧
    ∀ e ∈ (run parseHtml now none).2, isAssembledEvent e = false := by
  refine ⟨rfl, ?_⟩
  intro e he
  have h2 : e = RunEvent.fetchingPage ∨ e = RunEvent.fetchFailed := by
    simpa [run] using he
  rcases h2 with rfl | rfl <;> rfl

/-!  Lemmas about stripping and truncation, for the description claim. -/

theorem length_stripLeft_le (cs : Str) : (stripLeft cs).length ≤ cs.length :=
  (List.dropWhile_suffix isSpaceCh).length_le

theorem length_stripRight_le (cs : Str) : (stripRight cs).length ≤ cs.length := by
  rw [stripRight, List.length_reverse]
  calc (cs.reverse.dropWhile isSpaceCh).length ≤ cs.reverse.length :=
        (List.dropWhile_suffix isSpaceCh).length_le
    _ = cs.length := List.length_reverse cs

theorem length_pyStrip_le (cs : Str) : (pyStrip cs).length ≤ cs.length :=
  Nat.le_trans (length_stripRight_le _) (length_stripLeft_le _)

theorem stripLeft_dots (x : Str) : str "..." <:+ stripLeft (x ++ str "...") := by
  induction x with
  | nil =>
    rw [List.nil_append]
    exact List.suffix_refl _
  | cons c t ih =>
    rw [List.cons_append, stripLeft, List.dropWhile_cons]
    split
    · exact ih
    · exact List.IsSuffix.trans (List.suffix_append t (str "...")) (List.suffix_cons c _)

theorem stripRight_dots (y : Str) : stripRight (y ++ str "...") = y ++ str "..." := by
  rw [stripRight, List.reverse_append]
  have h : (str "...").reverse ++ y.reverse = '.' :: ('.' :: ('.' :: y.reverse)) := rfl
  rw [h, List.dropWhile_cons, if_neg (by simp [isSpaceCh])]
  have h2 : ('.' :: ('.' :: ('.' :: y.reverse))).reverse = y ++ str "..." := by
    simp [str]
  exact h2

theorem pyStrip_dots (x : Str) : str "..." <:+ pyStrip (x ++ str "...") := by
  obtain ⟨w, hw⟩ := stripLeft_dots x
  rw [pyStrip, ← hw, stripRight_dots]
  exact List.suffix_append w _

/-- Claim C3: every extracted description has length at most 503, and when
the cleaned text exceeded 500 characters the description ends with the
three-character ellipsis marker. -/
theorem description_truncated (now : ZonedDT) (e : Node) :
    (extract_article_info now e).description.length ≤ 503 ∧
    ((cleanedDescription e).length > 500 →
      str "..." <:+ (extract_article_info now e).description) := by
  have hdesc : (extract_article_info now e).description =
      pyStrip (if (cleanedDescription e).length > 500 then
        (cleanedDescription e).take 500 ++ str "..." else cleanedDescription e) := rfl
  constructor
  · rw [hdesc]
    split
    · calc (pyStrip ((cleanedDescription e).take 500 ++ str "...")).length
          ≤ ((cleanedDescription e).take 500 ++ str "...").length := length_pyStrip_le _
        _ = ((cleanedDescription e).take 500).length + 3 := by
            rw [List.length_append]; rfl
        _ ≤ 503 := by
            have := List.length_take_le 500 (cleanedDescription e)
            omega
    · calc (pyStrip (cleanedDescription e)).length
          ≤ (cleanedDescription e).length := length_pyStrip_le _
        _ ≤ 503 := by omega
  · intro h
    rw [hdesc, if_pos h]
    exact pyStrip_dots _

set_option maxRecDepth 100000 in
/-- Witness for the truncation claim at a concrete element whose cleaned
text is 510 characters long. -/
theorem description_truncated_witness :
    (cleanedDescription longTextElem).length > 500 ∧
    str "..." <:+ (extract_article_info now0 longTextElem).description :=
  ⟨by decide, (description_truncated now0 longTextElem).2 (by decide)⟩

/-!  Lemmas about the selector cascade. -/

theorem firstNonEmpty_of_find (f : Sel → List Node) :
    ∀ (l : List Sel) (sel : Sel), l.find? (fun s => !(f s).isEmpty) = some sel →
      firstNonEmpty (l.map f) = f sel ∧ (f sel).isEmpty = false := by
  intro l
  induction l with
  | nil => intro sel h; simp at h
  | cons s rest ih =>
    intro sel h
    rw [List.find?_cons] at h
    rw [List.map_cons, firstNonEmpty]
    cases hp : (!(f s).isEmpty) with
    | true =>
      rw [hp] at h
      have hse : s = sel := by simpa using h
      subst hse
      have he : (f s).isEmpty = false := by simpa using hp
      rw [if_neg (by simp [he])]
      exact ⟨rfl, he⟩
    | false =>
      rw [hp] at h
      have he : (f s).isEmpty = true := by simpa using hp
      rw [if_pos (by simp [he])]
      exact ih sel h

/-- Claim C4: when some tier-1 selector matches, the candidate list is
exactly the full match set of the first matching selector in the fixed
order, and the tier-2/tier-3 fallbacks are never consulted. -/
theorem segmenter_tier1_wins (soup : Node) (sel : Sel)
    (h : article_selectors.find? (fun s => !(select soup s).isEmpty) = some sel) :
    articleElements soup = select soup sel ∧ segmentTier soup = 1 := by
  obtain ⟨h1, h2⟩ := firstNonEmpty_of_find (select soup) article_selectors sel h
  have ht : tier1 soup = select soup sel := h1
  constructor
  · rw [articleElements, ht, if_neg (by simp [h2])]
  · rw [segmentTier, ht, if_neg (by simp [h2])]

/-- Witness: on a document with a `class="news-item"` container, the
`.news-item` selector is the first to match and tier 1 wins. -/
theorem segmenter_tier1_wins_witness :
    article_selectors.find? (fun s => !(select tier1Doc s).isEmpty) =
      some (Sel.classSel "news-item") ∧
    articleElements tier1Doc = select tier1Doc (Sel.classSel "news-item") ∧
    segmentTier tier1Doc = 1 :=
  ⟨by decide,
   (segmenter_tier1_wins tier1Doc (Sel.classSel "news-item") (by decide)).1,
   (segmenter_tier1_wins tier1Doc (Sel.classSel "news-item") (by decide)).2⟩

/-!  Lemmas about tier 2. -/

theorem mem_of_isPrefixOf {nd hay : Str} (h : nd.isPrefixOf hay = true) :
    ∀ c ∈ nd, c ∈ hay := by
  intro c hc
  exact (List.isPrefixOf_iff_prefix.mp h).subset hc

theorem mem_of_containsSub {hay nd : Str} (h : containsSub hay nd = true) :
    ∀ c ∈ nd, c ∈ hay := by
  induction hay with
  | nil =>
    rw [containsSub] at h
    cases nd with
    | nil => intro c hc; simp at hc
    | cons x xs => simp [List.isPrefixOf] at h
  | cons a t ih =>
    rw [containsSub, Bool.or_eq_true] at h
    intro c hc
    rcases h with h | h
    · exact mem_of_isPrefixOf h c hc
    · exact List.mem_cons_of_mem a (ih h c hc)

/-- Claim C5 (amended): tier 2 collects exactly the div/section elements
whose `tag.string` (the unique string reachable through single children) is
non-empty and that contain some `a[href]` whose target contains a `/`
character — the source's `'/news' in href or '/' in href` test collapses to
the latter. -/
theorem tier2_characterization (soup e : Node) :
    e ∈ tier2 soup ↔
      e ∈ desc soup ∧ (tagOf e = "div" ∨ tagOf e = "section") ∧
      (∃ s, nodeString e = some s ∧ s ≠ []) ∧
      (∃ v ∈ aHrefVals e, '/' ∈ v) := by
  rw [tier2]
  simp only [List.mem_filter, List.any_eq_true]
  constructor
  · rintro ⟨⟨hd, hp1⟩, hp2⟩
    rw [Bool.and_eq_true, Bool.or_eq_true, beq_iff_eq, beq_iff_eq] at hp1
    refine ⟨hd, hp1.1, ?_, ?_⟩
    · rcases hs : nodeString e with _ | s
      · rw [hs] at hp1; simp at hp1
      · rw [hs] at hp1
        refine ⟨s, rfl, ?_⟩
        have := hp1.2
        simpa using this
    · obtain ⟨v, hv, hcond⟩ := hp2
      rw [Bool.or_eq_true] at hcond
      refine ⟨v, hv, ?_⟩
      rcases hcond with h | h
      · exact mem_of_containsSub h '/' (by decide)
      · simpa using h
  · rintro ⟨hd, htag, ⟨s, hs, hne⟩, ⟨v, hv, hslash⟩⟩
    refine ⟨⟨hd, ?_⟩, ⟨v, hv, ?_⟩⟩
    · rw [Bool.and_eq_true, Bool.or_eq_true, beq_iff_eq, beq_iff_eq, hs]
      exact ⟨htag, by simpa using hne⟩
    · rw [Bool.or_eq_true]
      exact Or.inr (by simpa using hslash)

/-- Counterexample to claim C5 as stated: `cexDoc5`'s div has non-empty
visible text and a `/news` hyperlink, so the specification's tier-2 rule
collects it, but the source's tier 2 (filtered on `tag.string`) collects
nothing — the div has two children, so its `.string` is `None`. -/
theorem tier2_spec_mismatch :
    tier1 cexDoc5 = [] ∧ tier2 cexDoc5 = [] ∧
    (claimedTier2 cexDoc5).length = 1 := ⟨rfl, rfl, rfl⟩

/-!  Lemmas about the Feed Assembler. -/

theorem feedItems_generate_rss (now : ZonedDT) (arts : List ArticleInfo) :
    feedItems (generate_rss now arts) = arts.map itemElem := by
  have h : feedItems (generate_rss now arts) =
      (channelMeta now ++ arts.map itemElem).filter (fun c => c.tag == "item") := rfl
  rw [h, List.filter_append]
  have h1 : (channelMeta now).filter (fun c => c.tag == "item") = [] := rfl
  have h2 : (arts.map itemElem).filter (fun c => c.tag == "item") = arts.map itemElem := by
    apply List.filter_eq_self.mpr
    intro x hx
    obtain ⟨a, _, rfl⟩ := List.mem_map.mp hx
    rfl
  rw [h1, h2, List.nil_append]

/-- Claim C8: a feed built from N valid records has exactly N items, in
input order (the k-th item carries the k-th record's title and link), and
each item's guid is permalink-flagged with non-empty text equal to the
item's link. -/
theorem generate_rss_items (now : ZonedDT) (arts : List ArticleInfo)
    (hv : ∀ a ∈ arts, a.link ≠ []) :
    (feedItems (generate_rss now arts)).length = arts.length ∧
    ∀ k (hk : k < arts.length) (hk2 : k < (feedItems (generate_rss now arts)).length),
      childWithTag "title" ((feedItems (generate_rss now arts)).get ⟨k, hk2⟩) =
        some ⟨"title", [], (arts.get ⟨k, hk⟩).title, []⟩ ∧
      childWithTag "link" ((feedItems (generate_rss now arts)).get ⟨k, hk2⟩) =
        some ⟨"link", [], (arts.get ⟨k, hk⟩).link, []⟩ ∧
      childWithTag "guid" ((feedItems (generate_rss now arts)).get ⟨k, hk2⟩) =
        some ⟨"guid", [("isPermaLink", "true")], (arts.get ⟨k, hk⟩).link, []⟩ ∧
      (arts.get ⟨k, hk⟩).link ≠ [] := by
  have hitems := feedItems_generate_rss now arts
  constructor
  · rw [hitems, List.length_map]
  · intro k hk hk2
    have hget : (feedItems (generate_rss now arts)).get ⟨k, hk2⟩ =
        itemElem (arts.get ⟨k, hk⟩) := by
      have := List.get_of_eq hitems ⟨k, hk2⟩
      rw [this]
      exact List.getElem_map itemElem
    rw [hget]
    exact ⟨rfl, rfl, rfl, hv _ (List.get_mem arts k hk)⟩

/-- Witness for the feed-assembly claim on a concrete two-record list. -/
theorem generate_rss_items_witness :
    (feedItems (generate_rss now0 witnessArticles)).length = witnessArticles.length :=
  (generate_rss_items now0 witnessArticles (by decide)).1

/-!  Lemmas about the pattern priority of `extract_date_from_text`. -/

theorem searchLoop_first (now : ZonedDT) (text s : Str) :
    ∀ (ps : List (Str → Option Str)) (k : Nat) (hk : k < ps.length),
      reSearch (ps.get ⟨k, hk⟩) text = some s →
      (∀ j (hj : j < k), reSearch (ps.get ⟨j, Nat.lt_trans hj hk⟩) text = none) →
      searchLoop now ps text = parse_date_string now s := by
  intro ps
  induction ps with
  | nil => intro k hk; simp at hk
  | cons p rest ih =>
    intro k hk hs hnone
    cases k with
    | zero =>
      rw [searchLoop]
      have : reSearch p text = some s := hs
      rw [this]
    | succ k2 =>
      have h0 : reSearch p text = none := hnone 0 (Nat.succ_pos k2)
      rw [searchLoop, h0]
      exact ih k2 (Nat.lt_of_succ_lt_succ hk) hs
        (fun j hj => hnone (j + 1) (Nat.succ_lt_succ hj))

theorem searchLoop_nomatch (now : ZonedDT) (text : Str) :
    ∀ (ps : List (Str → Option Str)),
      (∀ j (hj : j < ps.length), reSearch (ps.get ⟨j, hj⟩) text = none) →
      searchLoop now ps text = formatRFC822 now := by
  intro ps
  induction ps with
  | nil => intro _; rfl
  | cons p rest ih =>
    intro hnone
    have h0 : reSearch p text = none := hnone 0 (Nat.succ_pos _)
    rw [searchLoop, h0]
    exact ih (fun j hj => hnone (j + 1) (Nat.succ_lt_succ hj))

/-- Claim C7: the five date patterns are tried in their fixed priority
order — when pattern `k` is the first whose `re.search` matches, the
extractor returns `parse_date_string` of that pattern's captured substring;
when none matches, it returns the current Pacific moment formatted. -/
theorem extract_date_priority :
    (∀ (now : ZonedDT) (text s : Str) (k : Nat) (hk : k < date_patterns.length),
      reSearch (date_patterns.get ⟨k, hk⟩) text = some s →
      (∀ j (hj : j < k), reSearch (date_patterns.get ⟨j, Nat.lt_trans hj hk⟩) text = none) →
      extract_date_from_text now text = parse_date_string now s) ∧
    (∀ (now : ZonedDT) (text : Str),
      (∀ j (hj : j < date_patterns.length), reSearch (date_patterns.get ⟨j, hj⟩) text = none) →
      extract_date_from_text now text = formatRFC822 now) :=
  ⟨fun now text s k hk hs hnone => searchLoop_first now text s date_patterns k hk hs hnone,
   fun now text hnone => searchLoop_nomatch now text date_patterns hnone⟩

/-- Witness: on text whose only date is in slash form, patterns 1–3 fail,
pattern 4 (index 3) captures `12/25/2025`, and the extractor hands exactly
that substring to the normalizer. -/
theorem extract_date_priority_witness :
    extract_date_from_text now0 slashDateText = parse_date_string now0 (str "12/25/2025") :=
  extract_date_priority.1 now0 slashDateText (str "12/25/2025") 3 (by decide)
    (by decide) (by decide)

/-!  Lemmas about tier 3 and link absoluteness. -/

theorem hasScheme_https_cons (z : Str) :
    hasScheme ('h' :: 't' :: 't' :: 'p' :: 's' :: ':' :: z) = true := by
  rw [hasScheme]
  rw [List.dropWhile_cons, if_pos (by decide), List.dropWhile_cons, if_pos (by decide),
    List.dropWhile_cons, if_pos (by decide), List.dropWhile_cons, if_pos (by decide),
    List.dropWhile_cons, if_neg (by decide), List.headD_cons]
  decide

theorem hasScheme_base_append (x : Str) : hasScheme (base_url ++ x) = true := by
  have h : base_url ++ x =
      'h' :: 't' :: 't' :: 'p' :: 's' :: ':' :: (str "//www.cityofbelvedere.org" ++ x) := rfl
  rw [h]
  exact hasScheme_https_cons _

theorem hasScheme_urljoin (rel : Str) : hasScheme (urljoin base_url rel) = true := by
  rw [urljoin]
  split
  · decide
  · split
    · next h => exact h
    · split
      · exact hasScheme_https_cons rel
      · split
        · exact hasScheme_base_append rel
        · split
          · exact hasScheme_base_append rel
          · exact hasScheme_base_append ('/' :: rel)

theorem extract_link_absolute (now : ZonedDT) (e : Node) :
    (extract_article_info now e).link = [] ∨
      hasScheme (extract_article_info now e).link = true := by
  have h : (extract_article_info now e).link = extractLink e := rfl
  rw [h, extractLink]
  rcases hfind : findFirstDesc isAHref e with _ | a
  · exact Or.inl rfl
  · exact Or.inr (hasScheme_urljoin _)

theorem tier3_nonempty_of_relLink (soup : Node) (h : hasRelLinkWithText soup = true) :
    tier3 soup ≠ [] := by
  rw [hasRelLinkWithText, List.any_eq_true] at h
  obtain ⟨n, hn, hq⟩ := h
  obtain ⟨pr, hpr, hpr2⟩ := List.mem_map.mp hn
  have hq3 : tier3Qualifies pr.2 = true := by
    rw [hpr2]
    rw [relLinkWithText, Bool.and_eq_true, Bool.and_eq_true] at hq
    obtain ⟨⟨ha, hrel⟩, htext⟩ := hq
    rw [isAHref, Bool.and_eq_true, isTagA, Bool.and_eq_true] at ha
    obtain ⟨⟨helem, htag⟩, hhref⟩ := ha
    cases n with
    | text _ => simp [isElem] at helem
    | elem t attrs cs =>
      have ht : t = "a" := by simpa [tagOf] using htag
      subst ht
      rw [tier3Qualifies]
      rcases hv : getAttr (Node.elem "a" attrs cs) "href" with _ | v
      · rw [hv] at hhref; simp at hhref
      · have hrel2 : startsWithCh '/' v = true := by
          rw [getAttrD, hv] at hrel
          simpa using hrel
        show ((containsSub v (str "/news") || startsWithCh '/' v) &&
          !(getText [] (Node.elem "a" attrs cs)).isEmpty) = true
        rw [Bool.and_eq_true, Bool.or_eq_true]
        exact ⟨Or.inr hrel2, htext⟩
  have hmem : pr.1 ∈ tier3 soup := by
    rw [tier3]
    exact List.mem_filterMap.mpr ⟨pr, hpr, by rw [if_pos hq3]⟩
  exact List.ne_nil_of_mem hmem

/-- Claim C6 (amended): with tiers 1 and 2 empty and a relative-path
hyperlink with text present, tier 3 yields at least one candidate and the
candidate list is tier 3's; every article record that survives filtering
has an absolute (scheme-carrying) link, so whenever at least one record
survives, the feed contains an item with an absolute link.  (The feed can
still be empty: a tier-3 candidate may extract an empty title.) -/
theorem tier3_fallback (now : ZonedDT) (soup : Node)
    (h1 : tier1 soup = []) (h2 : tier2 soup = [])
    (h3 : hasRelLinkWithText soup = true) :
    tier3 soup ≠ [] ∧ articleElements soup = tier3 soup ∧
    (∀ a ∈ parse_news_page now soup, hasScheme a.link = true) ∧
    (parse_news_page now soup ≠ [] →
      ∃ a ∈ parse_news_page now soup, hasScheme a.link = true) := by
  have habs : ∀ a ∈ parse_news_page now soup, hasScheme a.link = true := by
    intro a ha
    obtain ⟨_, hlink, _, hmem⟩ := mem_dedupLoop ha
    obtain ⟨e, _, rfl⟩ := List.mem_map.mp hmem
    rcases extract_link_absolute now e with h | h
    · exact absurd h hlink
    · exact h
  refine ⟨tier3_nonempty_of_relLink soup h3, ?_, habs, ?_⟩
  · rw [articleElements, h1, h2]
    simp
  · intro hne
    obtain ⟨a, ha⟩ := List.exists_mem_of_ne_nil _ hne
    exact ⟨a, ha, habs a ha⟩

/-- Witness: on `tier3Doc` the hypotheses hold and the single surviving
record's link is absolute. -/
theorem tier3_fallback_witness :
    tier3 tier3Doc ≠ [] ∧
    ∃ a ∈ parse_news_page now0 tier3Doc, hasScheme a.link = true :=
  ⟨(tier3_fallback now0 tier3Doc rfl rfl rfl).1,
   (tier3_fallback now0 tier3Doc rfl rfl rfl).2.2.2 (by decide)⟩

/-- Counterexample to claim C6 as stated: `cexDoc6` has empty tiers 1 and 2
and a relative-path hyperlink with non-empty text, and tier 3 does produce a
candidate — but the candidate's first hyperlink has empty text, so the
extracted title is empty, no record survives, and the run fails with no
feed at all (zero items). -/
theorem tier3_feed_cex :
    (tier1 cexDoc6 = [] ∧ tier2 cexDoc6 = [] ∧ hasRelLinkWithText cexDoc6 = true) ∧
    (tier3 cexDoc6).length = 1 ∧
    parse_news_page now0 cexDoc6 = [] ∧
    (run (fun _ => cexDoc6) now0 (some (str "<html>"))).1 = false ∧
    ∀ e ∈ (run (fun _ => cexDoc6) now0 (some (str "<html>"))).2,
      isAssembledEvent e = false := by
  refine ⟨⟨rfl, rfl, rfl⟩, rfl, rfl, rfl, ?_⟩
  intro e he
  rw [show (run (fun _ => cexDoc6) now0 (some (str "<html>"))).2 =
      [RunEvent.fetchingPage, RunEvent.parsingArticles, RunEvent.noArticlesFound] from rfl] at he
  simp only [List.mem_cons, List.not_mem_nil, or_false] at he
  rcases he with rfl | rfl | rfl <;> rfl

/-!  Lemmas about the manual fallback date parser. -/

theorem digitChar_isDigit (k : Nat) (h : k < 10) : (digitChar k).isDigit = true := by
  interval_cases k <;> decide

theorem digitVal_digitChar (k : Nat) (h : k < 10) : digitVal (digitChar k) = k := by
  interval_cases k <;> decide

theorem isSpaceCh_digitChar (k : Nat) : isSpaceCh (digitChar k) = false := by
  rcases k with _|_|_|_|_|_|_|_|_|k <;> rfl

theorem isSpaceCh_eq_false_of_isAlpha {c : Char} (h : c.isAlpha = true) :
    isSpaceCh c = false := by
  cases hsp : isSpaceCh c with
  | false => rfl
  | true =>
    exfalso
    rw [isSpaceCh] at hsp
    simp only [Bool.or_eq_true, beq_iff_eq] at hsp
    rcases hsp with ((((rfl | rfl) | rfl) | rfl) | rfl) | rfl <;> exact absurd h (by decide)

theorem spanP_all_append (p : Char → Bool) (xs : Str) (hxs : ∀ c ∈ xs, p c = true)
    (y : Char) (hy : p y = false) (rest : Str) :
    spanP p (xs ++ y :: rest) = (xs, y :: rest) := by
  induction xs with
  | nil =>
    rw [List.nil_append, spanP, if_neg (by simp [hy])]
  | cons c t ih =>
    rw [List.cons_append, spanP, if_pos (by simp [hxs c (List.mem_cons_self c t)])]
    rw [ih (fun a ha => hxs a (List.mem_cons_of_mem c ha))]

theorem render2_cons (d : Nat) : ∃ k tl, render2 d = digitChar k :: tl := by
  rw [render2]
  split
  · exact ⟨d, [], rfl⟩
  · exact ⟨d / 10, [digitChar (d % 10)], rfl⟩

theorem takeDigits4_render4 (y : Nat) (hy : y ≤ 9999) (t : Str) :
    takeDigits4 (render4 y ++ t) = some y := by
  have hshape : render4 y ++ t = digitChar (y / 1000 % 10) :: digitChar (y / 100 % 10) ::
      digitChar (y / 10 % 10) :: digitChar (y % 10) :: t := rfl
  rw [hshape, takeDigits4]
  have h1 := digitChar_isDigit (y / 1000 % 10) (Nat.mod_lt _ (by omega))
  have h2 := digitChar_isDigit (y / 100 % 10) (Nat.mod_lt _ (by omega))
  have h3 := digitChar_isDigit (y / 10 % 10) (Nat.mod_lt _ (by omega))
  have h4 := digitChar_isDigit (y % 10) (Nat.mod_lt _ (by omega))
  rw [if_pos (by rw [h1, h2, h3, h4]; rfl)]
  have hval : ((digitVal (digitChar (y / 1000 % 10)) * 10 + digitVal (digitChar (y / 100 % 10))) * 10 +
      digitVal (digitChar (y / 10 % 10))) * 10 + digitVal (digitChar (y % 10)) = y := by
    rw [digitVal_digitChar _ (Nat.mod_lt _ (by omega)), digitVal_digitChar _ (Nat.mod_lt _ (by omega)),
      digitVal_digitChar _ (Nat.mod_lt _ (by omega)), digitVal_digitChar _ (Nat.mod_lt _ (by omega))]
    omega
  rw [hval]

theorem parseTailWs_render (d y : Nat) (hy : y ≤ 9999) (t : Str) :
    parseTailWs d (' ' :: (render4 y ++ t)) = some (d, y) := by
  have hsp : spanP isSpaceCh (' ' :: (render4 y ++ t)) = ([' '], render4 y ++ t) := by
    have hshape : render4 y ++ t = digitChar (y / 1000 % 10) :: (digitChar (y / 100 % 10) ::
        digitChar (y / 10 % 10) :: digitChar (y % 10) :: t) := rfl
    rw [hshape]
    exact spanP_all_append isSpaceCh [' ']
      (by intro c hc; simp at hc; subst hc; decide)
      (digitChar (y / 1000 % 10)) (isSpaceCh_digitChar _) _
  rw [parseTailWs, hsp]
  rw [if_neg (by simp)]
  rw [takeDigits4_render4 y hy t]

theorem parseTail_render_comma (d y : Nat) (hy : y ≤ 9999) (t : Str) :
    parseTail d (',' :: (' ' :: (render4 y ++ t))) = some (d, y) := by
  show parseTailWs d (' ' :: (render4 y ++ t)) = some (d, y)
  exact parseTailWs_render d y hy t

theorem parseTail_render_space (d y : Nat) (hy : y ≤ 9999) (t : Str) :
    parseTail d (' ' :: (render4 y ++ t)) = some (d, y) := by
  show parseTailWs d (' ' :: (render4 y ++ t)) = some (d, y)
  exact parseTailWs_render d y hy t

theorem parseDayTail_render (d y : Nat) (hd1 : 1 ≤ d) (hd2 : d ≤ 99) (hy : y ≤ 9999)
    (comma : Bool) (t : Str) :
    parseDayTail (render2 d ++ ((if comma then [','] else []) ++ (' ' :: (render4 y ++ t)))) =
      some (d, y) := by
  by_cases hlt : d < 10
  · have hr : render2 d = [digitChar d] := by rw [render2, if_pos hlt]
    rw [hr]
    cases comma
    · show parseDayTail (digitChar d :: (' ' :: (render4 y ++ t))) = some (d, y)
      rw [parseDayTail]
      rw [if_pos (digitChar_isDigit d hlt), if_neg (by decide)]
      rw [digitVal_digitChar d hlt]
      exact parseTail_render_space d y hy t
    · show parseDayTail (digitChar d :: (',' :: (' ' :: (render4 y ++ t)))) = some (d, y)
      rw [parseDayTail]
      rw [if_pos (digitChar_isDigit d hlt), if_neg (by decide)]
      rw [digitVal_digitChar d hlt]
      exact parseTail_render_comma d y hy t
  · have hr : render2 d = [digitChar (d / 10), digitChar (d % 10)] := by
      rw [render2, if_neg hlt]
    rw [hr]
    cases comma
    · show parseDayTail (digitChar (d / 10) :: (digitChar (d % 10) ::
        (' ' :: (render4 y ++ t)))) = some (d, y)
      rw [parseDayTail]
      rw [if_pos (digitChar_isDigit (d / 10) (by omega)),
        if_pos (digitChar_isDigit (d % 10) (Nat.mod_lt _ (by omega)))]
      have hval : digitVal (digitChar (d / 10)) * 10 + digitVal (digitChar (d % 10)) = d := by
        rw [digitVal_digitChar _ (by omega), digitVal_digitChar _ (Nat.mod_lt _ (by omega))]
        omega
      rw [hval, parseTail_render_space d y hy t]
    · show parseDayTail (digitChar (d / 10) :: (digitChar (d % 10) ::
        (',' :: (' ' :: (render4 y ++ t))))) = some (d, y)
      rw [parseDayTail]
      rw [if_pos (digitChar_isDigit (d / 10) (by omega)),
        if_pos (digitChar_isDigit (d % 10) (Nat.mod_lt _ (by omega)))]
      have hval : digitVal (digitChar (d / 10)) * 10 + digitVal (digitChar (d % 10)) = d := by
        rw [digitVal_digitChar _ (by omega), digitVal_digitChar _ (Nat.mod_lt _ (by omega))]
        omega
      rw [hval, parseTail_render_comma d y hy t]

theorem parseMDY_render (name : Str) (hne : name ≠ [])
    (hal : ∀ c ∈ name, c.isAlpha = true) (comma : Bool) (d y : Nat)
    (hd1 : 1 ≤ d) (hd2 : d ≤ 99) (hy : y ≤ 9999) (t : Str) :
    parseMDY (renderDate name comma d y ++ t) = some (name, d, y) := by
  have hshape : renderDate name comma d y ++ t =
      name ++ ' ' :: (render2 d ++ ((if comma then [','] else []) ++
        (' ' :: (render4 y ++ t)))) := by
    rw [renderDate]
    simp [List.append_assoc]
  have hal2 : spanP (fun c => c.isAlpha) (renderDate name comma d y ++ t) =
      (name, ' ' :: (render2 d ++ ((if comma then [','] else []) ++
        (' ' :: (render4 y ++ t))))) := by
    rw [hshape]
    exact spanP_all_append _ name hal ' ' (by decide) _
  obtain ⟨k, tl, hk⟩ := render2_cons d
  have hws : spanP isSpaceCh (' ' :: (render2 d ++ ((if comma then [','] else []) ++
      (' ' :: (render4 y ++ t))))) =
      ([' '], render2 d ++ ((if comma then [','] else []) ++ (' ' :: (render4 y ++ t)))) := by
    rw [hk, List.cons_append]
    exact spanP_all_append isSpaceCh [' ']
      (by intro c hc; simp at hc; subst hc; decide)
      (digitChar k) (isSpaceCh_digitChar k) _
  rw [parseMDY, hal2]
  rw [if_neg (by simpa using hne)]
  rw [hws]
  rw [if_neg (by simp)]
  rw [parseDayTail_render d y hd1 hd2 hy comma t]

/-!  Stripping commutes with the rendered date. -/

theorem stripLeft_cons_of_nonspace {c : Char} (hc : isSpaceCh c = false) (t : Str) :
    stripLeft (c :: t) = c :: t := by
  rw [stripLeft, List.dropWhile_cons, if_neg (by simp [hc])]

theorem stripRight_concat_append (l : Str) (a : Char) (ha : isSpaceCh a = false) (b : Str) :
    stripRight ((l ++ [a]) ++ b) = (l ++ [a]) ++ stripRight b := by
  rw [stripRight, stripRight, List.reverse_append, List.reverse_append,
    List.reverse_singleton, List.singleton_append, List.dropWhile_append]
  by_cases hb : (b.reverse.dropWhile isSpaceCh).isEmpty
  · rw [if_pos hb]
    rw [List.dropWhile_cons, if_neg (by simp [ha])]
    have hbnil : b.reverse.dropWhile isSpaceCh = [] := by
      simpa [List.isEmpty_iff] using hb
    rw [hbnil]
    simp
  · rw [if_neg hb]
    rw [List.reverse_append]
    simp

theorem renderDate_concat (name : Str) (comma : Bool) (d y : Nat) :
    renderDate name comma d y =
      (name ++ [' '] ++ render2 d ++ (if comma then [','] else []) ++ [' '] ++
        [digitChar (y / 1000 % 10), digitChar (y / 100 % 10), digitChar (y / 10 % 10)]) ++
      [digitChar (y % 10)] := by
  rw [renderDate, render4]
  simp [List.append_assoc]

theorem pyStrip_render_append (name : Str) (comma : Bool) (d y : Nat) (suffix : Str)
    (hne : name ≠ []) (hal : ∀ c ∈ name, c.isAlpha = true) :
    pyStrip (renderDate name comma d y ++ suffix) =
      renderDate name comma d y ++ stripRight suffix := by
  obtain ⟨c, nm, rfl⟩ : ∃ c nm, name = c :: nm := by
    cases name with
    | nil => exact absurd rfl hne
    | cons c nm => exact ⟨c, nm, rfl⟩
  have hc : isSpaceCh c = false :=
    isSpaceCh_eq_false_of_isAlpha (hal c (List.mem_cons_self c nm))
  have hshape : renderDate (c :: nm) comma d y ++ suffix =
      c :: (nm ++ [' '] ++ render2 d ++ (if comma then [','] else []) ++ [' '] ++
        render4 y ++ suffix) := by
    rw [renderDate]
    simp [List.append_assoc]
  have hsl : stripLeft (renderDate (c :: nm) comma d y ++ suffix) =
      renderDate (c :: nm) comma d y ++ suffix := by
    rw [hshape, stripLeft_cons_of_nonspace hc, ← hshape]
  rw [pyStrip, hsl]
  rw [renderDate_concat (c :: nm) comma d y]
  exact stripRight_concat_append _ (digitChar (y % 10)) (isSpaceCh_digitChar _) suffix

theorem daysInMonth_le_31 (y m : Nat) : daysInMonth y m ≤ 31 := by
  rw [daysInMonth]
  split
  · split <;> omega
  · split <;> omega

/-- The full fallback-parse computation on a rendered date with an arbitrary
suffix: the stripped input prefix-matches, the month is looked up, the date
is validated, and the noon timestamp with the month-chosen seasonal offset
comes back — independently of the suffix and of the current time. -/
theorem parse_core_render (name : Str) (m d y : Nat) (comma : Bool) (suffix : Str)
    (hm : monthMap.lookup (lowerStr name) = some m)
    (hne : name ≠ []) (hal : ∀ c ∈ name, c.isAlpha = true)
    (hd1 : 1 ≤ d) (hd2 : d ≤ daysInMonth y m) (hy1 : 1 ≤ y) (hy2 : y ≤ 9999) :
    parse_date_string_core (renderDate name comma d y ++ suffix) =
      some ⟨y, m, d, 12, 0, 0, get_pacific_timezone m⟩ := by
  have hd99 : d ≤ 99 := Nat.le_trans hd2 (Nat.le_trans (daysInMonth_le_31 y m) (by omega))
  rw [parse_date_string_core, pyStrip_render_append name comma d y suffix hne hal,
    parseMDY_render name hne hal comma d y hd1 hd99 hy2 (stripRight suffix)]
  show buildDate name d y = some ⟨y, m, d, 12, 0, 0, get_pacific_timezone m⟩
  rw [buildDate, hm]
  have hv : isValidDate y m d = true := by
    rw [isValidDate]
    simp only [decide_eq_true_eq]
    exact ⟨hy1, by omega, hd1, hd2⟩
  show (if isValidDate y m d = true then
      some (⟨y, m, d, 12, 0, 0, get_pacific_timezone m⟩ : ZonedDT) else none) =
    some ⟨y, m, d, 12, 0, 0, get_pacific_timezone m⟩
  rw [if_pos hv]

theorem offsetStr_suffix_format (z : ZonedDT) :
    offsetStr z.offsetHours <:+ formatRFC822 z := by
  rw [formatRFC822]
  exact List.suffix_append _ _

/-- Claim C1: for every date text `<MonthName> <Day>, <Year>` the fallback
normalizer produces the noon timestamp whose offset is chosen by the parsed
month — the advanced `-0700` inside the March–November window and the
standard `-0800` outside it — independently of the current time `now`; in
particular `May 20, 2025` normalizes with `-0700` and `January 5, 2025`
with `-0800`. -/
theorem parse_date_string_seasonal :
    (∀ (now : ZonedDT) (name : Str) (m d y : Nat),
      monthMap.lookup (lowerStr name) = some m → name ≠ [] →
      (∀ c ∈ name, c.isAlpha = true) → 1 ≤ d → d ≤ daysInMonth y m →
      1000 ≤ y → y ≤ 9999 →
      parse_date_string now (renderDate name true d y) =
        formatRFC822 ⟨y, m, d, 12, 0, 0, get_pacific_timezone m⟩ ∧
      (3 ≤ m ∧ m ≤ 11 → str "-0700" <:+ parse_date_string now (renderDate name true d y)) ∧
      (¬(3 ≤ m ∧ m ≤ 11) → str "-0800" <:+ parse_date_string now (renderDate name true d y))) ∧
    (∀ now : ZonedDT, parse_date_string now (str "May 20, 2025") =
      str "Tue, 20 May 2025 12:00:00 -0700") ∧
    (∀ now : ZonedDT, parse_date_string now (str "January 5, 2025") =
      str "Sun, 05 Jan 2025 12:00:00 -0800") := by
  refine ⟨?_, fun now => rfl, fun now => rfl⟩
  intro now name m d y hm hne hal hd1 hd2 hy1 hy2
  have hcore : parse_date_string_core (renderDate name true d y) =
      some ⟨y, m, d, 12, 0, 0, get_pacific_timezone m⟩ := by
    have h := parse_core_render name m d y true [] hm hne hal hd1 hd2 (by omega) hy2
    rwa [List.append_nil] at h
  have hfmt : parse_date_string now (renderDate name true d y) =
      formatRFC822 ⟨y, m, d, 12, 0, 0, get_pacific_timezone m⟩ := by
    rw [parse_date_string, hcore]
  refine ⟨hfmt, ?_, ?_⟩
  · intro h37
    rw [hfmt]
    have h := offsetStr_suffix_format ⟨y, m, d, 12, 0, 0, get_pacific_timezone m⟩
    have heq : str "-0700" =
        offsetStr (ZonedDT.offsetHours ⟨y, m, d, 12, 0, 0, get_pacific_timezone m⟩) := by
      show str "-0700" = offsetStr (get_pacific_timezone m)
      rw [get_pacific_timezone, if_pos h37]
      rfl
    rw [heq]
    exact h
  · intro h37
    rw [hfmt]
    have h := offsetStr_suffix_format ⟨y, m, d, 12, 0, 0, get_pacific_timezone m⟩
    have heq : str "-0800" =
        offsetStr (ZonedDT.offsetHours ⟨y, m, d, 12, 0, 0, get_pacific_timezone m⟩) := by
      show str "-0800" = offsetStr (get_pacific_timezone m)
      rw [get_pacific_timezone, if_neg h37]
      rfl
    rw [heq]
    exact h

/-- Witness: `May 20, 2025` (month 5, inside the window) normalizes with the
advanced offset. -/
theorem parse_date_string_seasonal_witness :
    str "-0700" <:+ parse_date_string now0 (renderDate (str "May") true 20 2025) :=
  (parse_date_string_seasonal.1 now0 (str "May") 5 20 2025 (by decide) (by decide)
    (by decide) (by decide) (by decide) (by decide) (by decide)).2.1 (by omega)

/-- Claim C10: the fallback parser matches only a prefix — any trailing
characters after the four year digits are silently ignored, and the
normalized output of the extended text equals that of the bare date. -/
theorem fallback_prefix_parse :
    ∀ (name : Str) (m d y : Nat) (comma : Bool) (suffix : Str) (now : ZonedDT),
      monthMap.lookup (lowerStr name) = some m → name ≠ [] →
      (∀ c ∈ name, c.isAlpha = true) → 1 ≤ d → d ≤ daysInMonth y m →
      1000 ≤ y → y ≤ 9999 →
      parse_date_string_core (renderDate name comma d y ++ suffix) =
        some ⟨y, m, d, 12, 0, 0, get_pacific_timezone m⟩ ∧
      parse_date_string now (renderDate name comma d y ++ suffix) =
        parse_date_string now (renderDate name comma d y) := by
  intro name m d y comma suffix now hm hne hal hd1 hd2 hy1 hy2
  have h1 := parse_core_render name m d y comma suffix hm hne hal hd1 hd2 (by omega) hy2
  have h0 := parse_core_render name m d y comma [] hm hne hal hd1 hd2 (by omega) hy2
  rw [List.append_nil] at h0
  refine ⟨h1, ?_⟩
  rw [parse_date_string, parse_date_string, h1, h0]

/-- Witness: `May 20, 2025 at City Hall` normalizes exactly as the bare
`May 20, 2025`. -/
theorem fallback_prefix_parse_witness :
    parse_date_string now0 (renderDate (str "May") true 20 2025 ++ str " at City Hall") =
      parse_date_string now0 (renderDate (str "May") true 20 2025) :=
  (fallback_prefix_parse (str "May") 5 20 2025 true (str " at City Hall") now0
    (by decide) (by decide) (by decide) (by decide) (by decide) (by decide) (by decide)).2

end Belvedere
